import Mathlib

/-!
Verification of the speech I/O bridge of the EB_vocode repository.

The Python source is shallowly embedded: each adapter function becomes a
Lean function over explicit inputs (provider responses, polled statuses,
request bodies), and exceptions become `Except` values.  Field and
function names follow the source, converted to camelCase where the
original snake_case name is unavailable in this development.
-/

namespace EBVocode

/-! ## Streaming transcription (src/main1.py)

`MyTranscriptResultHandler.handle_transcript_event` iterates over
`transcript_event.transcript.results`; for each result with
`is_partial == False` it appends `" ".join(alt.transcript for alt in
result.alternatives)` to `self.transcription`. -/

structure Alternative where
  transcript : String
deriving DecidableEq

structure RecogResult where
  isPartial : Bool
  alternatives : List Alternative
deriving DecidableEq

structure TranscriptEvent where
  results : List RecogResult
deriving DecidableEq

/-- Body of the `for result in results` loop of `handle_transcript_event`:
one result's effect on the accumulated `self.transcription`. -/
def handleResult (acc : String) (r : RecogResult) : String :=
  if r.isPartial = false then
    acc ++ String.intercalate " " (r.alternatives.map Alternative.transcript)
  else
    acc

/-- `handle_transcript_event`: fold the loop body over the event's results. -/
def handleTranscriptEvent (acc : String) (ev : TranscriptEvent) : String :=
  ev.results.foldl handleResult acc

/-- The handler applied to a whole sequence of events, starting from the
`__init__` state `self.transcription = ""`. -/
def runHandler (events : List TranscriptEvent) : String :=
  events.foldl handleTranscriptEvent ""

/-- The best (first, highest-confidence) alternative of a result, when any. -/
def bestAlternativeText (r : RecogResult) : Option String :=
  r.alternatives.head?.map Alternative.transcript

/-- Modelled from the spec's words (for comparison with `runHandler`):
the space-joined concatenation of each non-partial result's best
alternative, in arrival order. -/
def specTranscript (events : List TranscriptEvent) : String :=
  String.intercalate " "
    (((events.flatMap TranscriptEvent.results).filter
        (fun r => !r.isPartial)).filterMap bestAlternativeText)

/-- What one result actually contributes in the code: nothing when
interim, otherwise all its alternatives joined by single spaces. -/
def resultContribution (r : RecogResult) : Option String :=
  if r.isPartial then none
  else some (String.intercalate " " (r.alternatives.map Alternative.transcript))

/-- Concatenation of a list of strings with no separator. -/
def concatAll (l : List String) : String :=
  l.foldl (fun a s => a ++ s) ""

theorem foldl_string_append (l : List String) (a : String) :
    l.foldl (fun a s => a ++ s) a = a ++ concatAll l := by
  induction l generalizing a with
  | nil => simp [concatAll]
  | cons s l ih =>
    simp only [concatAll, List.foldl_cons]
    rw [ih, ih ("" ++ s)]
    simp [String.append_assoc]

theorem concatAll_cons (s : String) (l : List String) :
    concatAll (s :: l) = s ++ concatAll l := by
  simp only [concatAll, List.foldl_cons]
  rw [foldl_string_append]
  simp [concatAll]

theorem foldl_handleResult (rs : List RecogResult) (acc : String) :
    rs.foldl handleResult acc = acc ++ concatAll (rs.filterMap resultContribution) := by
  induction rs generalizing acc with
  | nil => simp [concatAll]
  | cons r rs ih =>
    cases h : r.isPartial with
    | false =>
      have h1 : handleResult acc r =
          acc ++ String.intercalate " " (r.alternatives.map Alternative.transcript) := by
        simp [handleResult, h]
      have h2 : resultContribution r =
          some (String.intercalate " " (r.alternatives.map Alternative.transcript)) := by
        simp [resultContribution, h]
      rw [List.foldl_cons, List.filterMap_cons_some h2, h1, ih, concatAll_cons,
        String.append_assoc]
    | true =>
      have h1 : handleResult acc r = acc := by simp [handleResult, h]
      have h2 : resultContribution r = none := by simp [resultContribution, h]
      rw [List.foldl_cons, List.filterMap_cons_none h2, h1, ih]

theorem handleTranscriptEvent_spec (acc : String) (ev : TranscriptEvent) :
    handleTranscriptEvent acc ev =
      acc ++ concatAll (ev.results.filterMap resultContribution) :=
  foldl_handleResult ev.results acc

/-- Example inputs used to compare the handler with the spec's description. -/
def exEvents : List TranscriptEvent :=
  [⟨[⟨true, [⟨"hel"⟩]⟩]⟩, ⟨[⟨false, [⟨"hello"⟩]⟩]⟩, ⟨[⟨false, [⟨"world"⟩]⟩]⟩]

/-- A final result carrying two confidence-ordered alternatives. -/
def exEventsMulti : List TranscriptEvent :=
  [⟨[⟨false, [⟨"hello"⟩, ⟨"hullo"⟩]⟩]⟩]

theorem concatAll_append (l1 l2 : List String) :
    concatAll (l1 ++ l2) = concatAll l1 ++ concatAll l2 := by
  induction l1 with
  | nil => simp [concatAll]
  | cons s l ih => rw [List.cons_append, concatAll_cons, concatAll_cons, ih,
      String.append_assoc]

theorem foldl_handleTranscriptEvent (events : List TranscriptEvent) (acc : String) :
    events.foldl handleTranscriptEvent acc =
      acc ++ concatAll ((events.flatMap TranscriptEvent.results).filterMap resultContribution) := by
  induction events generalizing acc with
  | nil => simp [concatAll]
  | cons ev evs ih =>
    rw [List.foldl_cons, ih, handleTranscriptEvent_spec, List.flatMap_cons,
      List.filterMap_append, concatAll_append, String.append_assoc]

/-- Claim C1 (counterexample): the claim's example events
`[partial "hel", final "hello", final "world"]` yield `"helloworld"` in the
code, not the space-joined `"hello world"` the claim states; and a result
with two alternatives contributes all of them, not only the best one. -/
theorem c1_counterexample :
    runHandler exEvents ≠ specTranscript exEvents
    ∧ runHandler exEvents = "helloworld"
    ∧ specTranscript exEvents = "hello world"
    ∧ runHandler exEventsMulti ≠ specTranscript exEventsMulti
    ∧ runHandler exEventsMulti = "hello hullo"
    ∧ specTranscript exEventsMulti = "hello" :=
  ⟨by decide, by decide, by decide, by decide, by decide, by decide⟩

/-- Claim C1 (amended): for every finite sequence of RecognitionEvents fed
to the TranscriptAccumulator, the final transcript is the concatenation,
in arrival order and with no separator between results, of each
non-partial result's alternatives joined by single spaces within the
result; partial results contribute nothing. -/
theorem c1_transcript_accumulation (events : List TranscriptEvent) :
    runHandler events =
      concatAll ((events.flatMap TranscriptEvent.results).filterMap resultContribution) := by
  rw [runHandler, foldl_handleTranscriptEvent]
  simp

/-! ## Batch transcription (src/main_aws.py)

`AWSTranscribeHelper.transcribe_audio` submits a job, then loops:
query the job status; break when it is COMPLETED or FAILED; otherwise
`time.sleep(5)`.  On COMPLETED it fetches the result document once and
returns `json["results"]["transcripts"][0]["transcript"]`; otherwise it
raises `Exception("Transcription job failed.")`. -/

inductive JobStatus where
  | submitted
  | inProgress
  | completed
  | failed
deriving DecidableEq

/-- What one `get_transcription_job` call returns: the status and (used
only on COMPLETED) the `Transcript.TranscriptFileUri` field. -/
structure JobResponse where
  status : JobStatus
  transcriptFileUri : String
deriving DecidableEq

structure TranscriptEntry where
  transcript : String
deriving DecidableEq

structure TranscriptResults where
  transcripts : List TranscriptEntry
deriving DecidableEq

/-- The parsed body of the result document (`requests.get(url).json()`). -/
structure TranscriptDoc where
  results : TranscriptResults
deriving DecidableEq

/-- The provider as seen by `transcribe_audio`: the response to the k-th
status query, and the parsed document an HTTP GET of a URI returns. -/
structure BatchEnv where
  getJob : Nat → JobResponse
  fetch : String → TranscriptDoc

def JobStatus.isTerminal : JobStatus → Bool
  | completed => true
  | failed => true
  | _ => false

/-- The `while True` polling loop, with explicit fuel standing for the
number of iterations we are willing to observe (the Python loop has no
bound; `none` models non-termination).  Returns the number of status
queries made, the list of sleep durations performed, and the response
that caused the break. -/
def pollLoop (env : BatchEnv) : Nat → Nat → List Nat → Option (Nat × List Nat × JobResponse)
  | 0, _, _ => none
  | fuel + 1, k, sleeps =>
    let resp := env.getJob k
    if resp.status.isTerminal then some (k + 1, sleeps, resp)
    else pollLoop env fuel (k + 1) (sleeps ++ [5])

deriving instance DecidableEq for Except

/-- Observable trace of one `transcribe_audio` run: status queries made,
sleeps performed, result-document fetches performed, and the outcome. -/
structure BatchTrace where
  polls : Nat
  sleeps : List Nat
  fetches : Nat
  result : Except String String
deriving DecidableEq

/-- `AWSTranscribeHelper.transcribe_audio` after the job submission:
poll until a terminal status, then fetch and parse the result document
on COMPLETED or raise on FAILED. -/
def transcribe_audio (env : BatchEnv) (fuel : Nat) : Option BatchTrace :=
  match pollLoop env fuel 0 [] with
  | none => none
  | some (polls, sleeps, resp) =>
    if resp.status = JobStatus.completed then
      let doc := env.fetch resp.transcriptFileUri
      match doc.results.transcripts with
      | [] => some ⟨polls, sleeps, 1, Except.error "IndexError"⟩
      | entry :: _ => some ⟨polls, sleeps, 1, Except.ok entry.transcript⟩
    else
      some ⟨polls, sleeps, 0, Except.error "Transcription job failed."⟩

theorem pollLoop_spec (env : BatchEnv) (fuel : Nat) :
    ∀ k sleeps polls outSleeps resp,
      pollLoop env fuel k sleeps = some (polls, outSleeps, resp) →
      k < polls
      ∧ resp = env.getJob (polls - 1)
      ∧ (env.getJob (polls - 1)).status.isTerminal = true
      ∧ (∀ i, k ≤ i → i < polls - 1 → (env.getJob i).status.isTerminal = false)
      ∧ outSleeps = sleeps ++ List.replicate (polls - 1 - k) 5 := by
  induction fuel with
  | zero => intro k sleeps polls outSleeps resp h; exact absurd h (by simp [pollLoop])
  | succ fuel ih =>
    intro k sleeps polls outSleeps resp h
    rw [pollLoop] at h
    by_cases ht : (env.getJob k).status.isTerminal
    · rw [if_pos ht] at h
      simp only [Option.some.injEq, Prod.mk.injEq] at h
      obtain ⟨h1, h2, h3⟩ := h
      subst h1 h2 h3
      refine ⟨Nat.lt_succ_self k, ?_, ?_, ?_, ?_⟩
      · simp [Nat.add_sub_cancel]
      · simpa [Nat.add_sub_cancel] using ht
      · intro i hki hik
        omega
      · simp [Nat.add_sub_cancel]
    · rw [if_neg ht] at h
      obtain ⟨hk, hresp, hterm, hmid, hsl⟩ := ih (k + 1) (sleeps ++ [5]) polls outSleeps resp h
      refine ⟨Nat.lt_of_succ_lt hk, hresp, hterm, ?_, ?_⟩
      · intro i hki hik
        rcases Nat.eq_or_lt_of_le hki with rfl | hlt
        · exact Bool.of_not_eq_true ht
        · exact hmid i hlt hik
      · rw [hsl, List.append_assoc]
        have h5 : (5 : Nat) :: List.replicate (polls - 1 - (k + 1)) 5 =
            List.replicate (polls - 1 - k) 5 := by
          have : polls - 1 - k = (polls - 1 - (k + 1)) + 1 := by omega
          rw [this, List.replicate_succ]
        simp [← h5]

theorem isTerminal_false_iff (s : JobStatus) :
    s.isTerminal = false ↔ s ≠ JobStatus.completed ∧ s ≠ JobStatus.failed := by
  cases s <;> simp [JobStatus.isTerminal]

theorem transcribe_audio_eq (env : BatchEnv) (fuel polls : Nat) (sleeps : List Nat)
    (resp : JobResponse) (hp : pollLoop env fuel 0 [] = some (polls, sleeps, resp)) :
    transcribe_audio env fuel =
      if resp.status = JobStatus.completed then
        match (env.fetch resp.transcriptFileUri).results.transcripts with
        | [] => some ⟨polls, sleeps, 1, Except.error "IndexError"⟩
        | entry :: _ => some ⟨polls, sleeps, 1, Except.ok entry.transcript⟩
      else
        some ⟨polls, sleeps, 0, Except.error "Transcription job failed."⟩ := by
  rw [transcribe_audio, hp]

/-- Claim C2: `transcribe_audio` returns a transcript only when the last
polled status is COMPLETED; on FAILED it raises the transcription-job
failure and returns no result; while a poll observed SUBMITTED or
IN_PROGRESS the loop kept going, so no transcript was returned then. -/
theorem c2_batch_terminal_only (env : BatchEnv) (fuel : Nat) (tr : BatchTrace)
    (h : transcribe_audio env fuel = some tr) :
    (∀ t, tr.result = Except.ok t → (env.getJob (tr.polls - 1)).status = JobStatus.completed)
    ∧ ((env.getJob (tr.polls - 1)).status = JobStatus.failed →
        tr.result = Except.error "Transcription job failed.")
    ∧ (∀ j, j < tr.polls - 1 →
        (env.getJob j).status ≠ JobStatus.completed ∧ (env.getJob j).status ≠ JobStatus.failed) := by
  rcases hp : pollLoop env fuel 0 [] with _ | ⟨polls, sleeps, resp⟩
  · rw [transcribe_audio, hp] at h; exact absurd h (by simp)
  · rw [transcribe_audio_eq env fuel polls sleeps resp hp] at h
    obtain ⟨-, hresp, hterm, hmid, -⟩ := pollLoop_spec env fuel 0 [] polls sleeps resp hp
    have hmid' : ∀ j, j < polls - 1 →
        (env.getJob j).status ≠ JobStatus.completed ∧ (env.getJob j).status ≠ JobStatus.failed :=
      fun j hj => (isTerminal_false_iff _).1 (hmid j (Nat.zero_le j) hj)
    have hcomp : resp.status = JobStatus.completed →
        (env.getJob (polls - 1)).status = JobStatus.completed := by
      intro hc; rw [← hresp]; exact hc
    by_cases hc : resp.status = JobStatus.completed
    · rw [if_pos hc] at h
      rcases hd : (env.fetch resp.transcriptFileUri).results.transcripts with _ | ⟨entry, rest⟩ <;>
        rw [hd] at h <;>
        obtain rfl : _ = tr := Option.some.injEq .. ▸ h
      · exact ⟨fun t ht => absurd ht (by simp),
          fun hf => absurd ((hcomp hc).symm.trans hf) (by decide), hmid'⟩
      · exact ⟨fun t _ => hcomp hc,
          fun hf => absurd ((hcomp hc).symm.trans hf) (by decide), hmid'⟩
    · rw [if_neg hc] at h
      obtain rfl : _ = tr := Option.some.injEq .. ▸ h
      exact ⟨fun t ht => absurd ht (by simp), fun _ => rfl, hmid'⟩

/-- Claim C4: while the job is not terminal the loop sleeps exactly 5
time units between consecutive status queries; after observing COMPLETED
exactly one result fetch is performed, and the returned transcript is
the `results.transcripts[0].transcript` field of the fetched document. -/
theorem c4_poll_interval_single_fetch (env : BatchEnv) (fuel : Nat) (tr : BatchTrace)
    (t : String) (h : transcribe_audio env fuel = some tr) (ht : tr.result = Except.ok t) :
    tr.fetches = 1
    ∧ tr.sleeps = List.replicate (tr.polls - 1) 5
    ∧ ∃ entry rest,
        (env.fetch (env.getJob (tr.polls - 1)).transcriptFileUri).results.transcripts
          = entry :: rest ∧ t = entry.transcript := by
  rcases hp : pollLoop env fuel 0 [] with _ | ⟨polls, sleeps, resp⟩
  · rw [transcribe_audio, hp] at h; exact absurd h (by simp)
  · rw [transcribe_audio_eq env fuel polls sleeps resp hp] at h
    obtain ⟨-, hresp, hterm, -, hsl⟩ := pollLoop_spec env fuel 0 [] polls sleeps resp hp
    by_cases hc : resp.status = JobStatus.completed
    · rw [if_pos hc] at h
      rcases hd : (env.fetch resp.transcriptFileUri).results.transcripts with _ | ⟨entry, rest⟩ <;>
        rw [hd] at h <;> obtain rfl : _ = tr := Option.some.injEq .. ▸ h
      · exact absurd ht (by simp)
      · refine ⟨rfl, by simpa using hsl, entry, rest, ?_, ?_⟩
        · rw [← hresp]; exact hd
        · have h2 := ht
          simp only [Except.ok.injEq] at h2
          exact h2.symm
    · rw [if_neg hc] at h
      obtain rfl : _ = tr := Option.some.injEq .. ▸ h
      exact absurd ht (by simp)

/-- A concrete provider used to instantiate the batch theorems: the
first status query answers IN_PROGRESS, every later one COMPLETED, and
the result document holds the single transcript `"hi"`. -/
def batchEnvEx : BatchEnv where
  getJob := fun k => if k = 0 then ⟨JobStatus.inProgress, ""⟩ else ⟨JobStatus.completed, "uri"⟩
  fetch := fun _ => ⟨⟨[⟨"hi"⟩]⟩⟩

theorem c2_batch_terminal_only_witness :
    (batchEnvEx.getJob 1).status = JobStatus.completed :=
  (c2_batch_terminal_only batchEnvEx 3 ⟨2, [5], 1, Except.ok "hi"⟩ (by decide)).1 "hi" rfl

theorem c4_poll_interval_single_fetch_witness :
    BatchTrace.fetches ⟨2, [5], 1, Except.ok "hi"⟩ = 1
    ∧ BatchTrace.sleeps ⟨2, [5], 1, Except.ok "hi"⟩ =
        List.replicate (BatchTrace.polls ⟨2, [5], 1, Except.ok "hi"⟩ - 1) 5 :=
  have h := c4_poll_interval_single_fetch batchEnvEx 3 ⟨2, [5], 1, Except.ok "hi"⟩ "hi"
    (by decide) rfl
  ⟨h.1, h.2.1⟩

/-! ## Streaming session (src/main1.py, `transcribe_audio_stream`)

The provider session is the sequence of awaited items: each is either a
RecognitionEvent or a provider fault raised while awaiting it; opening
the session (`start_stream_transcription`) may itself fault.  The Python
function catches any exception only to log and re-raise it. -/

/-- `handler.handle_events()`: process items in order; a fault aborts
immediately and propagates; exhaustion returns the accumulated text. -/
def handleEvents : String → List (Except String TranscriptEvent) → Except String String
  | acc, [] => Except.ok acc
  | _, Except.error e :: _ => Except.error e
  | acc, Except.ok ev :: rest => handleEvents (handleTranscriptEvent acc ev) rest

/-- `transcribe_audio_stream`: open the session, run the handler from the
empty transcript, return `handler.transcription`; any fault propagates. -/
def transcribe_audio_stream
    (streamStart : Except String (List (Except String TranscriptEvent))) :
    Except String String :=
  match streamStart with
  | Except.error e => Except.error e
  | Except.ok items => handleEvents "" items

/-- The faults among the awaited items, in order. -/
def streamFaults (items : List (Except String TranscriptEvent)) : List String :=
  items.filterMap fun it =>
    match it with
    | Except.error e => some e
    | Except.ok _ => none

/-- The successfully delivered events, in order. -/
def okEvents (items : List (Except String TranscriptEvent)) : List TranscriptEvent :=
  items.filterMap fun it =>
    match it with
    | Except.ok ev => some ev
    | Except.error _ => none

theorem handleEvents_spec (items : List (Except String TranscriptEvent)) :
    ∀ acc,
      handleEvents acc items =
        match streamFaults items with
        | [] => Except.ok ((okEvents items).foldl handleTranscriptEvent acc)
        | e :: _ => Except.error e := by
  induction items with
  | nil => intro acc; rfl
  | cons it rest ih =>
    intro acc
    rcases it with e | ev
    · rfl
    · have h1 : streamFaults (Except.ok ev :: rest) = streamFaults rest := rfl
      have h2 : okEvents (Except.ok ev :: rest) = ev :: okEvents rest := rfl
      rw [handleEvents, ih, h1, h2]
      cases streamFaults rest <;> simp [List.foldl_cons]

/-- Claim C5: the streaming operation is all-or-nothing.  A transcript is
returned only when the session opened and every awaited item was an
event, and then it is the full accumulation over all of them; the first
provider fault (at open or mid-stream) makes the whole operation fail
with that fault, discarding any partially accumulated text. -/
theorem c5_streaming_all_or_nothing
    (streamStart : Except String (List (Except String TranscriptEvent)))
    (res : Except String String) (h : transcribe_audio_stream streamStart = res) :
    (∀ t, res = Except.ok t →
      ∃ items, streamStart = Except.ok items ∧ streamFaults items = []
        ∧ t = runHandler (okEvents items))
    ∧ (∀ items e rest, streamStart = Except.ok items → streamFaults items = e :: rest →
        res = Except.error e)
    ∧ (∀ e, streamStart = Except.error e → res = Except.error e) := by
  subst h
  rcases streamStart with e | items
  · refine ⟨fun t ht => absurd ht (by simp [transcribe_audio_stream]), ?_, ?_⟩
    · intro items e' rest hitems; exact absurd hitems (by simp)
    · intro e' he
      obtain rfl : e = e' := by injection he
      rfl
  · have hrun : transcribe_audio_stream (Except.ok items) = handleEvents "" items := rfl
    rw [hrun, handleEvents_spec items ""]
    refine ⟨?_, ?_, ?_⟩
    · intro t ht
      rcases hf : streamFaults items with _ | ⟨e, rest⟩
      · rw [hf] at ht
        simp only [Except.ok.injEq] at ht
        exact ⟨items, rfl, hf, ht.symm⟩
      · rw [hf] at ht; exact absurd ht (by simp)
    · intro items' e rest hitems hf
      obtain rfl : items = items' := by injection hitems
      rw [hf]
    · intro e he; exact absurd he (by simp)

theorem c5_streaming_all_or_nothing_witness :
    (Except.error "boom" : Except String String) = Except.error "boom" :=
  (c5_streaming_all_or_nothing (Except.ok [Except.error "boom"]) (Except.error "boom")
    rfl).2.1 [Except.error "boom"] "boom" [] rfl rfl

/-- Claim C9: exhaustion after zero events returns the empty transcript:
the handler starts from `self.transcription = ""` and `handle_events`
over an empty source leaves it unchanged. -/
theorem c9_zero_events_empty_transcript :
    transcribe_audio_stream (Except.ok []) = Except.ok "" ∧ runHandler [] = "" :=
  ⟨rfl, rfl⟩

/-! ## Call orchestration (src/main.py and src/main_aws.py)

`start_outbound_call(to_phone)` does nothing when `to_phone` is falsy
(None or the empty string); otherwise it constructs an `OutboundCall`
and calls `start()`, catching any exception to a log line only.  The
POST `/start_outbound_call` endpoint calls it and answers
`status: success` unconditionally. -/

structure CallObj where
  id : Nat
deriving DecidableEq

/-- The external telephony collaborator: `OutboundCall(...)` may raise
during construction, and `start()` may raise. -/
structure Telephony where
  construct : String → Except String CallObj
  start : CallObj → Except String Unit

/-- What one `start_outbound_call` run did: whether `OutboundCall(...)`
was evaluated, whether `start()` was reached, the log lines emitted, and
the exception (if any) escaping to the caller. -/
structure OrchestratorOutcome where
  constructAttempted : Bool
  startAttempted : Bool
  logs : List String
  raised : Option String
deriving DecidableEq

/-- Python truthiness of an `Optional[str]`. -/
def truthy : Option String → Bool
  | none => false
  | some s => !s.isEmpty

def start_outbound_call (tel : Telephony) (toPhone : Option String) : OrchestratorOutcome :=
  if truthy toPhone then
    match tel.construct (toPhone.getD "") with
    | Except.error e => ⟨true, false, ["Error starting outbound call: " ++ e], none⟩
    | Except.ok call =>
      match tel.start call with
      | Except.error e => ⟨true, true, ["Error starting outbound call: " ++ e], none⟩
      | Except.ok _ => ⟨true, true, ["Outbound call started to " ++ toPhone.getD ""], none⟩
  else
    ⟨false, false, [], none⟩

structure ApiResponse where
  status : String
deriving DecidableEq

/-- POST `/start_outbound_call`: run the orchestrator, then answer
`status: success` regardless of what happened. -/
def api_start_outbound_call (tel : Telephony) (toPhone : Option String) :
    OrchestratorOutcome × ApiResponse :=
  (start_outbound_call tel toPhone, ⟨"success"⟩)

/-- Claim C6: for every destination and every collaborator behavior —
including construction or `start()` raising — `start_outbound_call`
returns normally (no exception escapes, no success/failure return
value), and the endpoint answers `status: success`. -/
theorem c6_orchestrator_never_raises (tel : Telephony) (toPhone : Option String) :
    (start_outbound_call tel toPhone).raised = none
    ∧ (api_start_outbound_call tel toPhone).2 = ⟨"success"⟩ := by
  refine ⟨?_, rfl⟩
  rw [start_outbound_call]
  by_cases ht : truthy toPhone
  · rw [if_pos ht]
    rcases hc : tel.construct (toPhone.getD "") with e | call
    · rfl
    · rcases hs : tel.start call with e | u <;> simp [hs]
  · rw [if_neg ht]

/-- Claim C7: `start_outbound_call(None)` and `start_outbound_call("")`
are no-ops: no call object is constructed, no start is attempted, no
fault is raised, and nothing is logged. -/
theorem c7_empty_destination_noop (tel : Telephony) :
    start_outbound_call tel none = ⟨false, false, [], none⟩
    ∧ start_outbound_call tel (some "") = ⟨false, false, [], none⟩ :=
  ⟨rfl, rfl⟩

/-! ## Speech synthesis (src/main1.py `synthesize_speech` and
src/main_aws.py `AWSPollySynthesizer.synthesize`)

Both make one `polly_client.synthesize_speech(Text=text,
VoiceId="Joanna", OutputFormat="mp3")` call, return
`response["AudioStream"].read()`, and re-raise any provider error after
logging. -/

structure PollyRequest where
  text : String
  voiceId : String
  outputFormat : String
deriving DecidableEq

structure PollyResponse where
  audioStream : List Nat
deriving DecidableEq

/-- The synthesis adapter, with the provider's requests recorded. -/
def synthesize_speech (polly : PollyRequest → Except String PollyResponse)
    (text voiceId outputFormat : String) :
    List PollyRequest × Except String (List Nat) :=
  let req : PollyRequest := ⟨text, voiceId, outputFormat⟩
  match polly req with
  | Except.ok resp => ([req], Except.ok resp.audioStream)
  | Except.error e => ([req], Except.error e)

theorem synthesize_speech_eq (polly : PollyRequest → Except String PollyResponse)
    (text voiceId outputFormat : String) :
    synthesize_speech polly text voiceId outputFormat =
      ([⟨text, voiceId, outputFormat⟩],
        match polly ⟨text, voiceId, outputFormat⟩ with
        | Except.ok resp => Except.ok resp.audioStream
        | Except.error e => Except.error e) := by
  rw [synthesize_speech]
  cases polly ⟨text, voiceId, outputFormat⟩ <;> rfl

/-- Claim C8: `synthesize` makes exactly one synchronous provider call
per invocation and returns the complete audio buffer; a provider failure
surfaces unchanged to the caller, with no internal retry. -/
theorem c8_synthesis_single_call (polly : PollyRequest → Except String PollyResponse)
    (text : String) (calls : List PollyRequest) (res : Except String (List Nat))
    (h : synthesize_speech polly text "Joanna" "mp3" = (calls, res)) :
    calls = [⟨text, "Joanna", "mp3"⟩]
    ∧ (∀ resp, polly ⟨text, "Joanna", "mp3"⟩ = Except.ok resp →
        res = Except.ok resp.audioStream)
    ∧ (∀ e, polly ⟨text, "Joanna", "mp3"⟩ = Except.error e → res = Except.error e) := by
  rw [synthesize_speech_eq] at h
  obtain ⟨h1, h2⟩ := Prod.mk.injEq .. ▸ h
  subst h1 h2
  refine ⟨rfl, ?_, ?_⟩
  · intro resp hr
    rw [hr]
  · intro e he
    rw [he]

/-- A healthy provider answering every request with the bytes `[1, 2, 3]`. -/
def pollyEx : PollyRequest → Except String PollyResponse :=
  fun _ => Except.ok ⟨[1, 2, 3]⟩

theorem c8_synthesis_single_call_witness :
    (Except.ok [1, 2, 3] : Except String (List Nat))
      = Except.ok (PollyResponse.audioStream ⟨[1, 2, 3]⟩) :=
  (c8_synthesis_single_call pollyEx "hi" [⟨"hi", "Joanna", "mp3"⟩] (Except.ok [1, 2, 3])
    rfl).2.1 ⟨[1, 2, 3]⟩ rfl

/-! ## Inbound call endpoint (src/main.py and src/main_aws.py)

POST `/inbound_call` awaits `request.json()`; on success it answers
`status: call received`, and any exception is caught and answered with
`status: error`. -/

/-- An inbound request, carrying the outcome of parsing its body as JSON
(the payload is kept abstract as its serialized form). -/
structure InboundRequest where
  jsonBody : Except String String
deriving DecidableEq

structure StatusResponse where
  status : String
deriving DecidableEq

def inbound_call (req : InboundRequest) : StatusResponse :=
  match req.jsonBody with
  | Except.ok _ => ⟨"call received"⟩
  | Except.error _ => ⟨"error"⟩

/-- Claim C10: the inbound endpoint is total: every request gets one of
the two answers and no exception propagates; a parseable body answers
`call received` and a non-parseable one answers `error`. -/
theorem c10_inbound_total (req : InboundRequest) :
    (inbound_call req = ⟨"call received"⟩ ∨ inbound_call req = ⟨"error"⟩)
    ∧ (∀ p, req.jsonBody = Except.ok p → inbound_call req = ⟨"call received"⟩)
    ∧ (∀ e, req.jsonBody = Except.error e → inbound_call req = ⟨"error"⟩) := by
  rcases hb : req.jsonBody with e | p
  · have h1 : inbound_call req = ⟨"error"⟩ := by rw [inbound_call, hb]
    exact ⟨Or.inr h1, fun p hp => absurd hp (by simp), fun e2 he => h1⟩
  · have h1 : inbound_call req = ⟨"call received"⟩ := by rw [inbound_call, hb]
    exact ⟨Or.inl h1, fun p2 hp => h1, fun e he => absurd he (by simp)⟩

theorem c10_inbound_total_witness :
    inbound_call ⟨Except.ok "x"⟩ = ⟨"call received"⟩ :=
  (c10_inbound_total ⟨Except.ok "x"⟩).2.1 "x" rfl

/-! ## Batch job naming (src/main_aws.py, `transcribe_audio` line 96)

The job name is `f"transcription_job_{int(time.time())}"`: the fixed
prefix followed by the decimal representation of the whole second at
which the invocation ran.  Two invocations in the same second therefore
share a name.  To show names from distinct seconds never collide we
prove the decimal representation (`Nat.repr`) injective. -/

/-- `f"transcription_job_{int(time.time())}"` as a function of the
integer timestamp. -/
def jobName (t : Nat) : String :=
  "transcription_job_" ++ Nat.repr t

/-- One transcription invocation, active from the second it was started
to the second its polling ended. -/
structure Invocation where
  startSec : Nat
  stopSec : Nat
deriving DecidableEq

/-- Two invocations are concurrently active when their activity
intervals intersect. -/
def activeOverlap (a b : Invocation) : Prop :=
  a.startSec ≤ b.stopSec ∧ b.startSec ≤ a.stopSec

instance (a b : Invocation) : Decidable (activeOverlap a b) :=
  inferInstanceAs (Decidable (a.startSec ≤ b.stopSec ∧ b.startSec ≤ a.stopSec))

theorem toDigitsCore_append (b fuel : Nat) :
    ∀ n acc, Nat.toDigitsCore b fuel n acc = Nat.toDigitsCore b fuel n [] ++ acc := by
  induction fuel with
  | zero => intro n acc; rfl
  | succ fuel ih =>
    intro n acc
    simp only [Nat.toDigitsCore]
    by_cases h : n / b = 0
    · rw [if_pos h, if_pos h]
      rfl
    · rw [if_neg h, if_neg h, ih (n / b) [Nat.digitChar (n % b)],
        ih (n / b) (Nat.digitChar (n % b) :: acc), List.append_assoc]
      rfl

theorem toDigitsCore_fuel (n : Nat) :
    ∀ f1 f2, n < f1 → n < f2 →
      Nat.toDigitsCore 10 f1 n [] = Nat.toDigitsCore 10 f2 n [] := by
  induction n using Nat.strong_induction_on with
  | _ n ih =>
    intro f1 f2 h1 h2
    match f1, f2 with
    | fg1 + 1, fg2 + 1 =>
      simp only [Nat.toDigitsCore]
      by_cases h : n / 10 = 0
      · rw [if_pos h, if_pos h]
      · rw [if_neg h, if_neg h,
          toDigitsCore_append 10 fg1 (n / 10) [Nat.digitChar (n % 10)],
          toDigitsCore_append 10 fg2 (n / 10) [Nat.digitChar (n % 10)]]
        have hlt : n / 10 < n := Nat.div_lt_self (by omega) (by omega)
        rw [ih (n / 10) hlt fg1 fg2 (by omega) (by omega)]

/-- The digit string of `n` in base 10, as `Nat.toDigits` produces it. -/
def digitsRep (n : Nat) : List Char :=
  Nat.toDigitsCore 10 (n + 1) n []

theorem digitsRep_eq (n : Nat) :
    digitsRep n =
      if n < 10 then [Nat.digitChar n]
      else digitsRep (n / 10) ++ [Nat.digitChar (n % 10)] := by
  rw [digitsRep]
  simp only [Nat.toDigitsCore]
  by_cases h : n < 10
  · have h0 : n / 10 = 0 := Nat.div_eq_of_lt h
    rw [if_pos h0, if_pos h, Nat.mod_eq_of_lt h]
  · have h0 : ¬ n / 10 = 0 := by
      intro hz
      exact h (by omega : n < 10)
    have h0' : n / 10 ≠ 0 := h0
    have hge : 10 ≤ n := Nat.le_of_not_lt h
    rw [if_neg h0, if_neg h,
      toDigitsCore_append 10 n (n / 10) [Nat.digitChar (n % 10)], digitsRep]
    have hlt : n / 10 < n := Nat.div_lt_self (by omega) (by omega)
    rw [toDigitsCore_fuel (n / 10) n (n / 10 + 1) hlt (Nat.lt_succ_self _)]

/-- Reading a digit string back as a number. -/
def unreprStep (a : Nat) (c : Char) : Nat :=
  10 * a + (c.toNat - 48)

def unrepr (l : List Char) : Nat :=
  l.foldl unreprStep 0

theorem digitChar_toNat (d : Nat) (h : d < 10) : (Nat.digitChar d).toNat - 48 = d := by
  interval_cases d <;> rfl

theorem unrepr_digitsRep (n : Nat) : unrepr (digitsRep n) = n := by
  induction n using Nat.strong_induction_on with
  | _ n ih =>
    rw [digitsRep_eq]
    by_cases h : n < 10
    · rw [if_pos h]
      show unreprStep 0 (Nat.digitChar n) = n
      rw [unreprStep, digitChar_toNat n h]
      omega
    · rw [if_neg h]
      have hlt : n / 10 < n := Nat.div_lt_self (by omega) (by omega)
      rw [unrepr, List.foldl_append]
      have hmid : List.foldl unreprStep 0 (digitsRep (n / 10)) = n / 10 := ih (n / 10) hlt
      rw [hmid]
      show unreprStep (n / 10) (Nat.digitChar (n % 10)) = n
      rw [unreprStep, digitChar_toNat (n % 10) (Nat.mod_lt n (by omega))]
      omega

theorem repr_data (n : Nat) : (Nat.repr n).data = digitsRep n := rfl

theorem nat_repr_injective (m n : Nat) (h : Nat.repr m = Nat.repr n) : m = n := by
  have hd : digitsRep m = digitsRep n := by
    rw [← repr_data, ← repr_data, h]
  calc m = unrepr (digitsRep m) := (unrepr_digitsRep m).symm
    _ = unrepr (digitsRep n) := by rw [hd]
    _ = n := unrepr_digitsRep n

theorem string_data_append (a b : String) : (a ++ b).data = a.data ++ b.data := rfl

theorem jobName_inj (t1 t2 : Nat) (h : jobName t1 = jobName t2) : t1 = t2 := by
  apply nat_repr_injective
  have hd := congrArg String.data h
  rw [jobName, jobName, string_data_append, string_data_append] at hd
  have hd2 : (Nat.repr t1).data = (Nat.repr t2).data := List.append_cancel_left hd
  cases hr1 : Nat.repr t1 with
  | mk d1 =>
    cases hr2 : Nat.repr t2 with
    | mk d2 =>
      rw [hr1, hr2] at hd2
      exact congrArg String.mk hd2

/-- Claim C3 (counterexample): two distinct invocations starting within
the same second (timestamp 100) are concurrently active, yet
`f"transcription_job_{int(time.time())}"` gives them identical names. -/
theorem c3_counterexample :
    activeOverlap ⟨100, 110⟩ ⟨100, 120⟩
    ∧ (⟨100, 110⟩ : Invocation) ≠ ⟨100, 120⟩
    ∧ jobName (Invocation.startSec ⟨100, 110⟩) = jobName (Invocation.startSec ⟨100, 120⟩) :=
  ⟨by decide, by decide, rfl⟩

/-- Claim C3 (amended): the generated job name is unique only across
distinct whole seconds: two concurrently active invocations whose
`int(time.time())` values differ get distinct job names, while two
invocations in the same second collide (as the counterexample shows). -/
theorem c3_jobname_distinct_seconds (i1 i2 : Invocation)
    (_hov : activeOverlap i1 i2) (h : i1.startSec ≠ i2.startSec) :
    jobName i1.startSec ≠ jobName i2.startSec :=
  fun heq => h (jobName_inj i1.startSec i2.startSec heq)

theorem c3_jobname_distinct_seconds_witness :
    jobName 100 ≠ jobName 101 :=
  c3_jobname_distinct_seconds ⟨100, 110⟩ ⟨101, 120⟩ (by decide) (by decide)

end EBVocode
